import Mathlib

/-!
# Conflict handling of the todoitem sync client

A shallow embedding of `www/js/tableManager.js` (the push handler and its three
conflict handlers) and of the conflict dialog of `www/js/uiManager.js`, with the
properties of the conflict resolution engine proved about it.

Conventions of the embedding:

* a record is the ordered list of its own properties; reading a property that is
  not there gives `undefined`;
* the calls a handler makes on the push error (`cancel`, `cancelAndDiscard`,
  `cancelAndUpdate`, `update`, `changeAction`) and on the ui manager (`resolve`,
  `updateSummaryMessage`) are recorded, in order, in a log; the promises that the
  push error methods return belong to the sync library and are taken to fulfil;
* a handler ends by fulfilling, by rejecting, by throwing, or it stays pending on
  a decision that has not arrived.
-/

namespace ConflictHandling

/-! ## Values and records -/

/-- A primitive JavaScript value. Numbers are the integers. -/
inductive Value where
  | undefined
  | null
  | bool (b : Bool)
  | num (n : Int)
  | str (s : String)
deriving DecidableEq, Repr

/-- The own properties of an object, in insertion order. -/
abbrev Record := List (String × Value)

/-- A value that travels between the dialog and the update handler: a primitive or
a record object. Arrays are not represented. -/
inductive JSVal where
  | prim (v : Value)
  | obj (r : Record)
deriving DecidableEq, Repr

/-- The conversion to boolean that `&&`, `!` and `if` apply. -/
def truthy : Value → Bool
  | .undefined => false
  | .null => false
  | .bool b => b
  | .num n => n != 0
  | .str s => s != ""

/-- Property read `r.key`. -/
def getField : Record → String → Value
  | [], _ => .undefined
  | (k, v) :: rest, key => if k = key then v else getField rest key

/-- Whether `key` is an own property of the record. -/
def hasField (r : Record) (key : String) : Bool :=
  r.any (fun kv => kv.1 == key)

/-- Property write `r.key = v`: an existing property keeps its place, a new one is
added at the end. -/
def setField : Record → String → Value → Record
  | [], key, v => [(key, v)]
  | (k, w) :: rest, key, v =>
    if k = key then (k, v) :: rest else (k, w) :: setField rest key v

/-- Property removal `delete r.key`. -/
def deleteField (r : Record) (key : String) : Record :=
  r.filter (fun kv => kv.1 != key)

/-- What goes wrong inside a handler. -/
inductive Failure where
  | error (message : Value)
  | typeError
deriving DecidableEq, Repr

/-- Property read on something that may be `undefined`: reading a property of
`undefined` throws a TypeError. -/
def readProp : Option Record → String → Except Failure Value
  | none, _ => .error .typeError
  | some r, key => .ok (getField r key)

/-- Property write `result.key = v` on a value of any kind, outside strict mode:
it sets the property of an object, is ignored on a primitive, and throws a
TypeError on `null` and `undefined`. -/
def assignProp (result : JSVal) (key : String) (v : Value) : Except Failure JSVal :=
  match result with
  | .obj r => .ok (.obj (setField r key v))
  | .prim .undefined => .error .typeError
  | .prim .null => .error .typeError
  | .prim p => .ok (.prim p)

/-! ## The push error and the log of calls -/

/-- What the handlers read from a push error: `getAction()`, `getServerRecord()`,
`getClientRecord()` and `getError().request.status`. -/
structure PushError where
  action : String
  serverRecord : Option Record
  clientRecord : Option Record
  status : Nat
deriving DecidableEq, Repr

/-- One call made by a handler, on the push error or on the ui manager. -/
inductive Call where
  | cancel
  | cancelAndDiscard
  | cancelAndUpdate (record : Record)
  | update (record : JSVal)
  | changeAction (action : String) (record : Option Record)
  | resolve (clientRecord : Record)
  | updateSummaryMessage (message : Value)
deriving DecidableEq, Repr

/-- How a handler ends. -/
inductive Completion where
  | fulfilled
  | rejected (reason : Failure)
  | threw (reason : Failure)
  | pending
deriving DecidableEq, Repr

/-- The calls a handler made, in order, and how it ended. -/
structure Outcome where
  calls : List Call
  completion : Completion
deriving DecidableEq, Repr

/-- The calls that change the pending operation. -/
def Call.isMutation : Call → Bool
  | .cancel => true
  | .cancelAndDiscard => true
  | .cancelAndUpdate _ => true
  | .update _ => true
  | .changeAction _ _ => true
  | .resolve _ => false
  | .updateSummaryMessage _ => false

/-- The decision requests. -/
def Call.isRequest : Call → Bool
  | .resolve _ => true
  | _ => false

/-- The messages to the summary line. -/
def Call.isReport : Call → Bool
  | .updateSummaryMessage _ => true
  | _ => false

/-- The queue mutations of an outcome, in order. -/
def Outcome.mutations (o : Outcome) : List Call := o.calls.filter Call.isMutation

/-- The decision requests of an outcome, in order. -/
def Outcome.requests (o : Outcome) : List Call := o.calls.filter Call.isRequest

/-- The messages an outcome sent to the summary line, in order. -/
def Outcome.reports (o : Outcome) : List Call := o.calls.filter Call.isReport

/-! ## tableManager.js -/

/-- The decision source wired in by `setUiManager`: the value its promise is
fulfilled with for the record it is asked about, or `none` while no answer has
arrived. -/
abbrev UiManager := Record → Option JSVal

/-- `handleError(pushError, message)`: the first argument is not used. -/
def handleError (message : Value) : Outcome :=
  { calls := [.updateSummaryMessage message], completion := .rejected (.error message) }

/-- `handleInsertConflict(pushError)`. -/
def handleInsertConflict (_pushError : PushError) : Outcome :=
  { calls := [.cancel], completion := .fulfilled }

/-- The function passed to `then` in `handleUpdateConflict`: what is done with the
value the decision promise is fulfilled with. An exception in it rejects the
promise that `then` returned. -/
def onResolved (serverRecord clientRecord : Record) (result : JSVal) : Outcome :=
  if result = .prim (.str "skip") then
    { calls := [], completion := .fulfilled }
  else if result = .prim (.str "server") then
    { calls := [.cancelAndUpdate serverRecord], completion := .fulfilled }
  else
    let assigned : Except Failure JSVal :=
      if result = .prim (.str "client") then .ok (.obj clientRecord)
      else assignProp result "id" (getField serverRecord "id")
    match assigned with
    | .error e => { calls := [], completion := .rejected e }
    | .ok result1 =>
      match assignProp result1 "version" (getField serverRecord "version") with
      | .error e => { calls := [], completion := .rejected e }
      | .ok result2 => { calls := [.update result2], completion := .fulfilled }

/-- `handleUpdateConflict(pushError)`. -/
def handleUpdateConflict (uiManager : UiManager) (pushError : PushError) : Outcome :=
  if pushError.status = 404 then
    { calls := [.cancelAndDiscard], completion := .fulfilled }
  else
    match pushError.serverRecord, pushError.clientRecord with
    | some serverRecord, some clientRecord =>
      if getField serverRecord "text" = getField clientRecord "text" ∧
         getField serverRecord "complete" = getField clientRecord "complete" ∧
         getField serverRecord "deleted" = getField clientRecord "deleted" then
        { calls := [.cancelAndDiscard], completion := .fulfilled }
      else
        match uiManager clientRecord with
        | none => { calls := [.resolve clientRecord], completion := .pending }
        | some result =>
          let rest := onResolved serverRecord clientRecord result
          { calls := .resolve clientRecord :: rest.calls, completion := rest.completion }
    | _, _ => { calls := [], completion := .fulfilled }

/-- `handleDeleteConflict(pushError)`. The two conditions are evaluated as written,
left to right with short circuit; `serverRecord.deleted` is read only when the
status is 412. -/
def handleDeleteConflict (pushError : PushError) : Outcome :=
  let status := pushError.status
  let serverRecord := pushError.serverRecord
  let first : Except Failure Bool :=
    if status = 404 then .ok true
    else if status = 409 then .ok true
    else if status = 412 then (readProp serverRecord "deleted").map truthy
    else .ok false
  match first with
  | .error e => { calls := [], completion := .threw e }
  | .ok true => { calls := [.cancelAndDiscard], completion := .fulfilled }
  | .ok false =>
    let second : Except Failure Bool :=
      if status = 412 then (readProp serverRecord "deleted").map (fun v => !truthy v)
      else .ok false
    match second with
    | .error e => { calls := [], completion := .threw e }
    | .ok true => { calls := [.changeAction "update" serverRecord], completion := .fulfilled }
    | .ok false =>
      handleError (.str "All possible errors were handled. We do not expect to be here ever!")

/-- `onConflict(pushError)`. The last line calls `handleError` with the text as its
first argument, so the message it passes on is `undefined`. -/
def onConflict (uiManager : UiManager) (pushError : PushError) : Outcome :=
  if pushError.action = "insert" then handleInsertConflict pushError
  else if pushError.action = "update" then handleUpdateConflict uiManager pushError
  else if pushError.action = "delete" then handleDeleteConflict pushError
  else handleError .undefined

/-- `pushHandler.onError(pushError)`. -/
def onError (uiManager : UiManager) (pushError : PushError) : Outcome :=
  if pushError.status = 404 then onConflict uiManager pushError
  else handleError
    (.str "Encountered error while pushing change to server. Possibly connectivity issue!")

/-! ## uiManager.js -/

/-- A piece of text, held as what `JSON.parse` makes of it: either a SyntaxError or
the value it denotes. The empty text is not JSON. -/
inductive Text where
  | invalid
  | json (v : JSVal)
deriving DecidableEq, Repr

/-- Calls `JSON.parse(text)`: `none` stands for the SyntaxError. -/
def JSON_parse : Text → Option JSVal
  | .invalid => none
  | .json v => some v

/-- The object that `JSON.parse(JSON.stringify(record))` builds: the properties of
the record in their order, without those whose value is `undefined`, which
`JSON.stringify` leaves out. -/
def jsonCopy (record : Record) : Record :=
  record.filter (fun kv => kv.2 != .undefined)

/-- Calls `JSON.stringify(record)` on a record object. -/
def JSON_stringify (record : Record) : Text :=
  .json (.obj (jsonCopy record))

/-- A reference to an object. -/
abbrev Ref := Nat

/-- The objects that exist, by reference. -/
abbrev Heap := List Record

/-- The object behind a reference. -/
def readObj (h : Heap) (p : Ref) : Record := h.getD p []

/-- A new object: the heap with it, and its reference. -/
def allocObj (h : Heap) (r : Record) : Heap × Ref := (h ++ [r], h.length)

/-- The heap after the object behind `p` has become `r`. -/
def writeObj (h : Heap) (p : Ref) (r : Record) : Heap := h.set p r

/-- The state that the functions of the ui manager work on: the objects, the module
variable `result`, the text and visibility of `#custominput`, whether the click
handlers of the four options are registered, whether the dialog is open, and how
many alerts were shown. -/
structure UiState where
  heap : Heap
  result : JSVal
  custominput : Text
  custominputVisible : Bool
  handlersBound : Bool
  dialogOpen : Bool
  alerts : Nat
deriving DecidableEq, Repr

/-- The state when the module is loaded: `result` is the string server. -/
def UiState.init (heap : Heap) : UiState :=
  { heap := heap, result := .prim (.str "server"), custominput := .invalid,
    custominputVisible := false, handlersBound := false, dialogOpen := false, alerts := 0 }

/-- `setConflictResolutionCandidate(record)`. -/
def setConflictResolutionCandidate (st : UiState) (record : Ref) : UiState :=
  let created := allocObj st.heap (jsonCopy (readObj st.heap record))
  let value := created.2
  let heap1 := created.1
  let heap2 := writeObj heap1 value (deleteField (readObj heap1 value) "id")
  let heap3 := writeObj heap2 value (deleteField (readObj heap2 value) "deleted")
  let heap4 := writeObj heap3 value (deleteField (readObj heap3 value) "version")
  { st with heap := heap4, custominput := JSON_stringify (readObj heap4 value) }

/-- `showConflictDialog(resolve, reject)`: the dialog is shown, with the close
handler below. -/
def showConflictDialog (st : UiState) : UiState :=
  { st with dialogOpen := true }

/-- `resolve(clientRecord)`: the promise it returns is settled by the close handler. -/
def resolve (st : UiState) (clientRecord : Ref) : UiState :=
  showConflictDialog { setConflictResolutionCandidate st clientRecord with handlersBound := true }

/-- The click handler of `#server`, `#client` and `#skip`, for the name of the option. -/
def chooseOption (st : UiState) (name : String) : UiState :=
  { st with result := .prim (.str name), custominput := .invalid, custominputVisible := false }

/-- The click handler of `#custom`. -/
def chooseCustom (st : UiState) : UiState :=
  { st with result := .prim .undefined, custominputVisible := true }

/-- The `close` handler of the dialog: the state after it, and the value it passes
to the promise, if it passes one. -/
def closeHandler (st : UiState) : UiState × Option JSVal :=
  if st.result ≠ .prim (.str "server") ∧ st.result ≠ .prim (.str "client") ∧
     st.result ≠ .prim (.str "skip") then
    match JSON_parse st.custominput with
    | some v => ({ st with result := v }, some v)
    | none => (showConflictDialog { st with alerts := st.alerts + 1 }, none)
  else (st, some st.result)

/-- What the user does while the dialog is open. -/
inductive UiEvent where
  | clickServer
  | clickClient
  | clickSkip
  | clickCustom
  | input (text : Text)
  | close
deriving DecidableEq, Repr

/-- One event: the state after it and the value passed to the promise, if any. -/
def uiStep (st : UiState) : UiEvent → UiState × Option JSVal
  | .clickServer => (if st.handlersBound then chooseOption st "server" else st, none)
  | .clickClient => (if st.handlersBound then chooseOption st "client" else st, none)
  | .clickSkip => (if st.handlersBound then chooseOption st "skip" else st, none)
  | .clickCustom => (if st.handlersBound then chooseCustom st else st, none)
  | .input text => ({ st with custominput := text }, none)
  | .close => if st.dialogOpen then closeHandler { st with dialogOpen := false } else (st, none)

/-- The events in order, up to the first value passed to the promise: that value
settles it. -/
def uiRun (st : UiState) : List UiEvent → UiState × Option JSVal
  | [] => (st, none)
  | e :: es =>
    match uiStep st e with
    | (st1, some v) => (st1, some v)
    | (st1, none) => uiRun st1 es

/-- The ui manager as the decision source of the table manager, for a user who does
`events` in a dialog that starts in state `st`. -/
def dialogManager (st : UiState) (events : List UiEvent) : UiManager :=
  fun clientRecord =>
    let created := allocObj st.heap clientRecord
    (uiRun (resolve { st with heap := created.1 } created.2) events).2

/-! ## Sample inputs -/

/-- A server record with text bar and version v2. -/
def sampleServer : Record :=
  [("id", .str "A"), ("text", .str "bar"), ("complete", .bool false),
   ("deleted", .bool false), ("version", .str "v2")]

/-- A client record with text foo and version v1. -/
def sampleClient : Record :=
  [("id", .str "A"), ("text", .str "foo"), ("complete", .bool false),
   ("deleted", .bool false), ("version", .str "v1")]

/-- An update that failed with status 412 on the two sample records. -/
def sampleUpdate : PushError :=
  { action := "update", serverRecord := some sampleServer,
    clientRecord := some sampleClient, status := 412 }

/-- A server record that is a tombstone, with the text and the complete flag of
the sample client record. -/
def tombstoneServer : Record :=
  [("id", .str "A"), ("text", .str "foo"), ("complete", .bool false),
   ("deleted", .bool true), ("version", .str "v2")]

/-- An update that failed with status 409 against the tombstone. -/
def tombstoneUpdate : PushError :=
  { action := "update", serverRecord := some tombstoneServer,
    clientRecord := some sampleClient, status := 409 }

/-- An update that failed with status 409 and came without a server record. -/
def orphanUpdate : PushError :=
  { action := "update", serverRecord := none,
    clientRecord := some sampleClient, status := 409 }

/-- A delete that failed with status 412 and came without a server record. -/
def orphanDelete : PushError :=
  { action := "delete", serverRecord := none,
    clientRecord := some sampleClient, status := 412 }

/-- What a user does who picks custom, enters the JSON text of the string skip, and
closes the dialog. -/
def quotedSkipEvents : List UiEvent :=
  [.clickCustom, .input (.json (.prim (.str "skip"))), .close]

/-- What a user does who picks custom, enters the JSON text null, and closes the
dialog. -/
def nullEvents : List UiEvent :=
  [.clickCustom, .input (.json (.prim .null)), .close]

/-- A record whose note property holds `undefined`. -/
def noteRecord : Record :=
  [("id", .str "A"), ("text", .str "foo"), ("note", .undefined)]

/-! ## The candidate record -/

/-- The object that `setConflictResolutionCandidate` ends with for a record: its copy
after the three removals, in the order of the source. -/
def candidateOf (record : Record) : Record :=
  deleteField (deleteField (deleteField (jsonCopy record) "id") "deleted") "version"

/-! ## Properties of records -/

theorem getField_setField_same (r : Record) (key : String) (v : Value) :
    getField (setField r key v) key = v := by
  induction r with
  | nil => simp [setField, getField]
  | cons kv rest ih =>
    obtain ⟨k, w⟩ := kv
    by_cases hk : k = key
    · simp [setField, getField, hk]
    · simp [setField, getField, hk, ih]

theorem getField_setField_other (r : Record) (key other : String) (v : Value)
    (h : other ≠ key) : getField (setField r key v) other = getField r other := by
  induction r with
  | nil => simp [setField, getField, Ne.symm h]
  | cons kv rest ih =>
    obtain ⟨k, w⟩ := kv
    by_cases hk : k = key
    · subst hk
      simp [setField, getField, Ne.symm h]
    · by_cases ho : k = other
      · subst ho
        simp [setField, getField, h]
      · simp [setField, getField, hk, ho, ih]

theorem hasField_setField_other (r : Record) (key other : String) (v : Value)
    (h : other ≠ key) : hasField (setField r key v) other = hasField r other := by
  induction r with
  | nil => simp [setField, hasField, Ne.symm h]
  | cons kv rest ih =>
    obtain ⟨k, w⟩ := kv
    by_cases hk : k = key
    · simp [setField, hasField, hk]
    · simp only [hasField] at ih
      simp [setField, hasField, hk, ih]

/-! ## The update handler after a decision -/

/-- C1: in a genuine update conflict (status other than 404, both records there,
text or complete different) the answer decides the one mutation: the string
server gives `cancelAndUpdate` with the server record as it is; the string client
gives `update` with the client record whose version is the server version and
whose other properties, id among them, are as they were; a custom record gives
`update` with that record whose id and version are those of the server record and
whose other properties are as supplied. -/
theorem genuine_conflict_applies_answer (uiManager : UiManager) (pushError : PushError)
    (serverRecord clientRecord : Record)
    (hserver : pushError.serverRecord = some serverRecord)
    (hclient : pushError.clientRecord = some clientRecord)
    (hstatus : pushError.status ≠ 404)
    (hdiffer : getField serverRecord "text" ≠ getField clientRecord "text" ∨
      getField serverRecord "complete" ≠ getField clientRecord "complete") :
    (uiManager clientRecord = some (.prim (.str "server")) →
      (handleUpdateConflict uiManager pushError).mutations
        = [.cancelAndUpdate serverRecord]) ∧
    (uiManager clientRecord = some (.prim (.str "client")) →
      ∃ r, (handleUpdateConflict uiManager pushError).mutations = [.update (.obj r)] ∧
        getField r "version" = getField serverRecord "version" ∧
        ∀ key, key ≠ "version" →
          getField r key = getField clientRecord key ∧
          hasField r key = hasField clientRecord key) ∧
    (∀ custom, uiManager clientRecord = some (.obj custom) →
      ∃ r, (handleUpdateConflict uiManager pushError).mutations = [.update (.obj r)] ∧
        getField r "id" = getField serverRecord "id" ∧
        getField r "version" = getField serverRecord "version" ∧
        ∀ key, key ≠ "id" → key ≠ "version" →
          getField r key = getField custom key ∧
          hasField r key = hasField custom key) := by
  have hnot : ¬ (getField serverRecord "text" = getField clientRecord "text" ∧
      getField serverRecord "complete" = getField clientRecord "complete" ∧
      getField serverRecord "deleted" = getField clientRecord "deleted") := by
    rintro ⟨h1, h2, _⟩
    rcases hdiffer with h | h
    · exact h h1
    · exact h h2
  refine ⟨?_, ?_, ?_⟩
  · intro hanswer
    simp [handleUpdateConflict, hstatus, hserver, hclient, hnot, hanswer, onResolved,
      Outcome.mutations, Call.isMutation]
  · intro hanswer
    refine ⟨setField clientRecord "version" (getField serverRecord "version"), ?_,
      getField_setField_same _ _ _, ?_⟩
    · simp [handleUpdateConflict, hstatus, hserver, hclient, hnot, hanswer, onResolved,
        assignProp, Outcome.mutations, Call.isMutation]
    · intro key hkey
      exact ⟨getField_setField_other _ _ _ _ hkey, hasField_setField_other _ _ _ _ hkey⟩
  · intro custom hanswer
    refine ⟨setField (setField custom "id" (getField serverRecord "id")) "version"
      (getField serverRecord "version"), ?_, ?_, getField_setField_same _ _ _, ?_⟩
    · simp [handleUpdateConflict, hstatus, hserver, hclient, hnot, hanswer, onResolved,
        assignProp, Outcome.mutations, Call.isMutation]
    · rw [getField_setField_other _ _ _ _ (by decide), getField_setField_same]
    · intro key hid hversion
      constructor
      · rw [getField_setField_other _ _ _ _ hversion, getField_setField_other _ _ _ _ hid]
      · rw [hasField_setField_other _ _ _ _ hversion, hasField_setField_other _ _ _ _ hid]

/-- The client answer on the sample conflict: the update carries id A and the
server version v2. -/
theorem genuine_conflict_applies_answer_witness :
    ∃ r, (handleUpdateConflict (fun _ => some (.prim (.str "client"))) sampleUpdate).mutations
        = [.update (.obj r)] ∧
      getField r "version" = .str "v2" ∧ getField r "id" = .str "A" ∧
      getField r "text" = .str "foo" := by
  obtain ⟨r, hm, hv, hrest⟩ :=
    (genuine_conflict_applies_answer (fun _ => some (.prim (.str "client"))) sampleUpdate
      sampleServer sampleClient rfl rfl (by decide) (Or.inl (by decide))).2.1 rfl
  refine ⟨r, hm, ?_, ?_, ?_⟩
  · rw [hv]; rfl
  · rw [(hrest "id" (by decide)).1]; rfl
  · rw [(hrest "text" (by decide)).1]; rfl

/-! ## The delete handler -/

/-- C2: a delete that failed with status 404 or 409 is discarded by one
`cancelAndDiscard`, whether or not a server record came with it; with status 412
and a server record it is discarded when the deleted flag of the server record is
set, and otherwise turned into an update by one `changeAction` that carries the
server record as it is. In each case nothing else is called and the handler
fulfils. -/
theorem delete_conflict_resolution (pushError : PushError) :
    ((pushError.status = 404 ∨ pushError.status = 409) →
      handleDeleteConflict pushError
        = { calls := [.cancelAndDiscard], completion := .fulfilled }) ∧
    (∀ serverRecord, pushError.serverRecord = some serverRecord →
      pushError.status = 412 → truthy (getField serverRecord "deleted") = true →
      handleDeleteConflict pushError
        = { calls := [.cancelAndDiscard], completion := .fulfilled }) ∧
    (∀ serverRecord, pushError.serverRecord = some serverRecord →
      pushError.status = 412 → truthy (getField serverRecord "deleted") = false →
      handleDeleteConflict pushError
        = { calls := [.changeAction "update" (some serverRecord)],
            completion := .fulfilled }) := by
  refine ⟨?_, ?_, ?_⟩
  · rintro (h | h) <;> simp [handleDeleteConflict, h]
  · intro serverRecord hserver hstatus hdeleted
    simp [handleDeleteConflict, hserver, hstatus, readProp, Except.map, hdeleted]
  · intro serverRecord hserver hstatus hdeleted
    simp [handleDeleteConflict, hserver, hstatus, readProp, Except.map, hdeleted]

/-- A delete with status 412 against the live sample server record becomes an update
that carries that record. -/
theorem delete_conflict_resolution_witness :
    handleDeleteConflict
        { action := "delete", serverRecord := some sampleServer,
          clientRecord := some sampleClient, status := 412 }
      = { calls := [.changeAction "update" (some sampleServer)], completion := .fulfilled } :=
  (delete_conflict_resolution
    { action := "delete", serverRecord := some sampleServer,
      clientRecord := some sampleClient, status := 412 }).2.2 sampleServer rfl rfl (by decide)

/-- With a status other than 404, 409 and 412 the delete handler reports its
message to the summary line and rejects with it, and changes nothing. -/
theorem delete_other_status_fails (pushError : PushError)
    (h404 : pushError.status ≠ 404) (h409 : pushError.status ≠ 409)
    (h412 : pushError.status ≠ 412) :
    handleDeleteConflict pushError
      = handleError
          (.str "All possible errors were handled. We do not expect to be here ever!") := by
  simp [handleDeleteConflict, h404, h409, h412]

/-- C8: a delete that failed with status 412 and came without a server record makes
the handler throw a TypeError when it reads the deleted flag: nothing is sent to
the summary line and no rejection with a message is returned. -/
theorem delete_without_server_record_throws :
    handleDeleteConflict orphanDelete = { calls := [], completion := .threw .typeError } ∧
    (handleDeleteConflict orphanDelete).reports = [] := by
  decide

/-! ## The update handler before a decision -/

/-- C3 as stated fails: text and complete agree and the status is 409, but the
deleted flags differ, and the handler asks for a decision instead of discarding. -/
theorem payload_equal_counterexample :
    tombstoneUpdate.status ≠ 404 ∧
    tombstoneUpdate.serverRecord = some tombstoneServer ∧
    tombstoneUpdate.clientRecord = some sampleClient ∧
    getField tombstoneServer "text" = getField sampleClient "text" ∧
    getField tombstoneServer "complete" = getField sampleClient "complete" ∧
    handleUpdateConflict (fun _ => none) tombstoneUpdate
      = { calls := [.resolve sampleClient], completion := .pending } ∧
    (handleUpdateConflict (fun _ => some (.prim (.str "server"))) tombstoneUpdate).calls
      = [.resolve sampleClient, .cancelAndUpdate tombstoneServer] := by
  decide

/-- C3, amended: when the status is not 404, both records are there, and text,
complete and the deleted flag agree, the handler makes one call, `cancelAndDiscard`,
and fulfils, whatever the ids and versions and whatever decision source is wired
in; so no decision is requested and the result is the same each time. -/
theorem identical_records_discard (uiManager : UiManager) (pushError : PushError)
    (serverRecord clientRecord : Record)
    (hserver : pushError.serverRecord = some serverRecord)
    (hclient : pushError.clientRecord = some clientRecord)
    (hstatus : pushError.status ≠ 404)
    (htext : getField serverRecord "text" = getField clientRecord "text")
    (hcomplete : getField serverRecord "complete" = getField clientRecord "complete")
    (hdeleted : getField serverRecord "deleted" = getField clientRecord "deleted") :
    handleUpdateConflict uiManager pushError
      = { calls := [.cancelAndDiscard], completion := .fulfilled } ∧
    (handleUpdateConflict uiManager pushError).requests = [] ∧
    ∀ other : UiManager,
      handleUpdateConflict other pushError = handleUpdateConflict uiManager pushError := by
  have key : ∀ ui : UiManager, handleUpdateConflict ui pushError
      = { calls := [.cancelAndDiscard], completion := .fulfilled } := by
    intro ui
    simp [handleUpdateConflict, hstatus, hserver, hclient, htext, hcomplete, hdeleted]
  refine ⟨key uiManager, ?_, ?_⟩
  · rw [key uiManager]; rfl
  · intro other
    rw [key other, key uiManager]

/-- The sample client record against itself with another version: discarded. -/
theorem identical_records_discard_witness :
    handleUpdateConflict (fun _ => some (.prim (.str "client")))
        { action := "update", serverRecord := some (setField sampleClient "version" (.str "v2")),
          clientRecord := some sampleClient, status := 412 }
      = { calls := [.cancelAndDiscard], completion := .fulfilled } :=
  (identical_records_discard (fun _ => some (.prim (.str "client")))
    { action := "update", serverRecord := some (setField sampleClient "version" (.str "v2")),
      clientRecord := some sampleClient, status := 412 }
    (setField sampleClient "version" (.str "v2")) sampleClient rfl rfl
    (by decide) (by decide) (by decide) (by decide)).1

/-- C4: an update that failed with status 404 is discarded by one
`cancelAndDiscard`, through `onConflict` and through `onError` alike, whatever
records came with it: no decision is requested, nothing is reported, and the
handler fulfils. -/
theorem update_not_found_discards (uiManager : UiManager) (pushError : PushError)
    (haction : pushError.action = "update") (hstatus : pushError.status = 404) :
    onConflict uiManager pushError
      = { calls := [.cancelAndDiscard], completion := .fulfilled } ∧
    onError uiManager pushError
      = { calls := [.cancelAndDiscard], completion := .fulfilled } := by
  simp [onError, onConflict, handleUpdateConflict, haction, hstatus]

/-- An update with status 404 and no record at all. -/
theorem update_not_found_discards_witness :
    onConflict (fun _ => none)
        { action := "update", serverRecord := none, clientRecord := none, status := 404 }
      = { calls := [.cancelAndDiscard], completion := .fulfilled } ∧
    onError (fun _ => none)
        { action := "update", serverRecord := none, clientRecord := none, status := 404 }
      = { calls := [.cancelAndDiscard], completion := .fulfilled } :=
  update_not_found_discards (fun _ => none)
    { action := "update", serverRecord := none, clientRecord := none, status := 404 } rfl rfl

/-- C5: an insert that failed is resolved by `onConflict` with one `cancel`,
whatever its status and records: no other call is made and the handler fulfils. -/
theorem insert_conflict_cancels (uiManager : UiManager) (pushError : PushError)
    (haction : pushError.action = "insert") :
    onConflict uiManager pushError = { calls := [.cancel], completion := .fulfilled } := by
  simp [onConflict, handleInsertConflict, haction]

/-- An insert with status 500 and two different records. -/
theorem insert_conflict_cancels_witness :
    onConflict (fun _ => some (.prim (.str "client")))
        { action := "insert", serverRecord := some sampleServer,
          clientRecord := some sampleClient, status := 500 }
      = { calls := [.cancel], completion := .fulfilled } :=
  insert_conflict_cancels (fun _ => some (.prim (.str "client")))
    { action := "insert", serverRecord := some sampleServer,
      clientRecord := some sampleClient, status := 500 } rfl

/-- C7 as stated fails: an update with status 409 that came without a server record
makes the handler return at once, with no decision requested and nothing done. -/
theorem missing_record_counterexample :
    orphanUpdate.status ≠ 404 ∧ orphanUpdate.serverRecord = none ∧
    handleUpdateConflict (fun _ => some (.prim (.str "client"))) orphanUpdate
      = { calls := [], completion := .fulfilled } ∧
    (handleUpdateConflict (fun _ => some (.prim (.str "client"))) orphanUpdate).requests
      = [] := by
  decide

/-- C7, amended: when the status is not 404 and both records are there and differ
in text or complete, the handler requests exactly one decision, with the client
record, and that request is its first call; while no answer has come the request
is its only call and the handler is pending. -/
theorem genuine_conflict_requests_once (uiManager : UiManager) (pushError : PushError)
    (serverRecord clientRecord : Record)
    (hserver : pushError.serverRecord = some serverRecord)
    (hclient : pushError.clientRecord = some clientRecord)
    (hstatus : pushError.status ≠ 404)
    (hdiffer : getField serverRecord "text" ≠ getField clientRecord "text" ∨
      getField serverRecord "complete" ≠ getField clientRecord "complete") :
    (handleUpdateConflict uiManager pushError).requests = [.resolve clientRecord] ∧
    (∃ rest, (handleUpdateConflict uiManager pushError).calls
      = .resolve clientRecord :: rest) ∧
    (uiManager clientRecord = none →
      handleUpdateConflict uiManager pushError
        = { calls := [.resolve clientRecord], completion := .pending }) := by
  have hnot : ¬ (getField serverRecord "text" = getField clientRecord "text" ∧
      getField serverRecord "complete" = getField clientRecord "complete" ∧
      getField serverRecord "deleted" = getField clientRecord "deleted") := by
    rintro ⟨h1, h2, _⟩
    rcases hdiffer with h | h
    · exact h h1
    · exact h h2
  cases hanswer : uiManager clientRecord with
  | none =>
    simp [handleUpdateConflict, hstatus, hserver, hclient, hnot, hanswer,
      Outcome.requests, Call.isRequest]
  | some result =>
    have hrest : (onResolved serverRecord clientRecord result).calls.filter Call.isRequest
        = [] := by
      unfold onResolved
      split
      · rfl
      · split
        · rfl
        · dsimp only
          split
          · rfl
          · split <;> rfl
    simp [handleUpdateConflict, hstatus, hserver, hclient, hnot, hanswer,
      Outcome.requests, Call.isRequest, hrest]

/-- The sample conflict with no answer yet: one request, nothing else. -/
theorem genuine_conflict_requests_once_witness :
    handleUpdateConflict (fun _ => none) sampleUpdate
      = { calls := [.resolve sampleClient], completion := .pending } :=
  (genuine_conflict_requests_once (fun _ => none) sampleUpdate sampleServer sampleClient
    rfl rfl (by decide) (Or.inl (by decide))).2.2 rfl

/-! ## One mutation for each resolved failure -/

theorem onResolved_skip (serverRecord clientRecord : Record) :
    onResolved serverRecord clientRecord (.prim (.str "skip"))
      = { calls := [], completion := .fulfilled } := by
  simp [onResolved]

theorem onResolved_fulfilled (serverRecord clientRecord : Record) (result : JSVal)
    (hskip : result ≠ .prim (.str "skip"))
    (hdone : (onResolved serverRecord clientRecord result).completion = .fulfilled) :
    ∃ m, (onResolved serverRecord clientRecord result).calls = [m] ∧ m.isMutation = true := by
  unfold onResolved at hdone ⊢
  rw [if_neg hskip] at hdone ⊢
  split
  · exact ⟨_, rfl, rfl⟩
  · rename_i hserver
    rw [if_neg hserver] at hdone
    dsimp only at hdone ⊢
    split
    · rename_i e he
      rw [he] at hdone
      cases hdone
    · rename_i result1 h1
      rw [h1] at hdone
      dsimp only at hdone
      split
      · rename_i e he
        rw [he] at hdone
        cases hdone
      · exact ⟨_, rfl, rfl⟩

theorem handleDeleteConflict_fulfilled (pushError : PushError)
    (hdone : (handleDeleteConflict pushError).completion = .fulfilled) :
    ∃ m, (handleDeleteConflict pushError).calls = [m] ∧ m.isMutation = true := by
  unfold handleDeleteConflict at hdone ⊢
  dsimp only at hdone ⊢
  split
  · rename_i e he
    rw [he] at hdone
    cases hdone
  · exact ⟨_, rfl, rfl⟩
  · rename_i hfirst
    rw [hfirst] at hdone
    dsimp only at hdone
    split
    · rename_i e he
      rw [he] at hdone
      cases hdone
    · exact ⟨_, rfl, rfl⟩
    · rename_i hsecond
      rw [hsecond] at hdone
      cases hdone

/-- C6 as stated fails: on the sample conflict the answer skip lets the handler
fulfil with a request and no mutation at all. -/
theorem skip_counterexample :
    onConflict (fun _ => some (.prim (.str "skip"))) sampleUpdate
      = { calls := [.resolve sampleClient], completion := .fulfilled } ∧
    (onConflict (fun _ => some (.prim (.str "skip"))) sampleUpdate).mutations = [] := by
  decide

theorem handleUpdateConflict_mutations (uiManager : UiManager) (pushError : PushError)
    (hdone : (handleUpdateConflict uiManager pushError).completion = .fulfilled) :
    (handleUpdateConflict uiManager pushError).mutations.length ≤ 1 ∧
    ((∀ c, Call.resolve c ∈ (handleUpdateConflict uiManager pushError).calls →
        uiManager c ≠ some (.prim (.str "skip"))) →
      (pushError.status ≠ 404 →
        pushError.serverRecord ≠ none ∧ pushError.clientRecord ≠ none) →
      (handleUpdateConflict uiManager pushError).mutations.length = 1) ∧
    ((∃ c, Call.resolve c ∈ (handleUpdateConflict uiManager pushError).calls ∧
        uiManager c = some (.prim (.str "skip"))) →
      (handleUpdateConflict uiManager pushError).mutations = []) := by
  by_cases hstatus : pushError.status = 404
  · have h : handleUpdateConflict uiManager pushError
        = { calls := [.cancelAndDiscard], completion := .fulfilled } := by
      simp [handleUpdateConflict, hstatus]
    rw [h]
    refine ⟨by decide, fun _ _ => by decide, ?_⟩
    rintro ⟨c, hc, _⟩
    simp at hc
  · cases hserver : pushError.serverRecord with
    | none =>
      have h : handleUpdateConflict uiManager pushError
          = { calls := [], completion := .fulfilled } := by
        simp [handleUpdateConflict, hstatus, hserver]
      rw [h]
      refine ⟨by decide, fun _ hrec => absurd rfl (hrec hstatus).1, fun _ => rfl⟩
    | some serverRecord =>
      cases hclient : pushError.clientRecord with
      | none =>
        have h : handleUpdateConflict uiManager pushError
            = { calls := [], completion := .fulfilled } := by
          simp [handleUpdateConflict, hstatus, hserver, hclient]
        rw [h]
        refine ⟨by decide, fun _ hrec => absurd rfl (hrec hstatus).2, fun _ => rfl⟩
      | some clientRecord =>
        by_cases hsame : getField serverRecord "text" = getField clientRecord "text" ∧
            getField serverRecord "complete" = getField clientRecord "complete" ∧
            getField serverRecord "deleted" = getField clientRecord "deleted"
        · have h : handleUpdateConflict uiManager pushError
              = { calls := [.cancelAndDiscard], completion := .fulfilled } := by
            simp [handleUpdateConflict, hstatus, hserver, hclient, hsame]
          rw [h]
          refine ⟨by decide, fun _ _ => by decide, ?_⟩
          rintro ⟨c, hc, _⟩
          simp at hc
        · cases hanswer : uiManager clientRecord with
          | none =>
            have h : handleUpdateConflict uiManager pushError
                = { calls := [.resolve clientRecord], completion := .pending } := by
              simp [handleUpdateConflict, hstatus, hserver, hclient, hsame, hanswer]
            rw [h] at hdone
            cases hdone
          | some result =>
            have h : handleUpdateConflict uiManager pushError
                = { calls := .resolve clientRecord ::
                      (onResolved serverRecord clientRecord result).calls,
                    completion := (onResolved serverRecord clientRecord result).completion } := by
              simp [handleUpdateConflict, hstatus, hserver, hclient, hsame, hanswer]
            rw [h] at hdone ⊢
            dsimp only at hdone
            by_cases hskip : result = .prim (.str "skip")
            · subst hskip
              rw [onResolved_skip]
              refine ⟨by simp [Outcome.mutations, Call.isMutation], ?_, fun _ => rfl⟩
              intro hno _
              exact absurd hanswer (hno clientRecord (by simp))
            · obtain ⟨m, hcalls, hm⟩ :=
                onResolved_fulfilled serverRecord clientRecord result hskip hdone
              rw [hcalls]
              have hlen : (Outcome.mutations
                  { calls := [.resolve clientRecord, m],
                    completion := (onResolved serverRecord clientRecord result).completion }) = [m] := by
                have hreq : Call.isMutation (.resolve clientRecord) = false := rfl
                simp [Outcome.mutations, List.filter, hreq, hm]
              rw [hlen]
              refine ⟨by simp, fun _ _ => by simp, ?_⟩
              rintro ⟨c, hc, hcskip⟩
              simp only [List.mem_cons, List.mem_singleton, List.not_mem_nil, or_false] at hc
              rcases hc with hc | hc
              · cases hc
                rw [hanswer] at hcskip
                exact absurd (Option.some.inj hcskip) hskip
              · subst hc
                cases hm

/-- C6, amended: when `onConflict` fulfils, it has applied at most one mutation to
the pending operation; exactly one if no decision it requested was answered skip
and, for an update with a status other than 404, both records were there; and none
if a decision it requested was answered skip. -/
theorem fulfilled_conflict_mutations (uiManager : UiManager) (pushError : PushError)
    (hdone : (onConflict uiManager pushError).completion = .fulfilled) :
    (onConflict uiManager pushError).mutations.length ≤ 1 ∧
    ((∀ c, Call.resolve c ∈ (onConflict uiManager pushError).calls →
        uiManager c ≠ some (.prim (.str "skip"))) →
      (pushError.action = "update" → pushError.status ≠ 404 →
        pushError.serverRecord ≠ none ∧ pushError.clientRecord ≠ none) →
      (onConflict uiManager pushError).mutations.length = 1) ∧
    ((∃ c, Call.resolve c ∈ (onConflict uiManager pushError).calls ∧
        uiManager c = some (.prim (.str "skip"))) →
      (onConflict uiManager pushError).mutations = []) := by
  by_cases hinsert : pushError.action = "insert"
  · have h : onConflict uiManager pushError
        = { calls := [.cancel], completion := .fulfilled } := by
      simp [onConflict, handleInsertConflict, hinsert]
    rw [h]
    refine ⟨by decide, fun _ _ => by decide, ?_⟩
    rintro ⟨c, hc, _⟩
    simp at hc
  · by_cases hupdate : pushError.action = "update"
    · have h : onConflict uiManager pushError = handleUpdateConflict uiManager pushError := by
        simp [onConflict, hupdate]
      rw [h] at hdone ⊢
      obtain ⟨h1, h2, h3⟩ := handleUpdateConflict_mutations uiManager pushError hdone
      exact ⟨h1, fun hno hrec => h2 hno (hrec hupdate), h3⟩
    · by_cases hdelete : pushError.action = "delete"
      · have h : onConflict uiManager pushError = handleDeleteConflict pushError := by
          simp [onConflict, hdelete]
        rw [h] at hdone ⊢
        obtain ⟨m, hcalls, hm⟩ := handleDeleteConflict_fulfilled pushError hdone
        have hmut : (handleDeleteConflict pushError).mutations = [m] := by
          simp [Outcome.mutations, hcalls, hm]
        rw [hmut, hcalls]
        refine ⟨by simp, fun _ _ => by simp, ?_⟩
        rintro ⟨c, hc, _⟩
        simp only [List.mem_singleton] at hc
        subst hc
        cases hm
      · have h : onConflict uiManager pushError = handleError .undefined := by
          simp [onConflict, hinsert, hupdate, hdelete]
        rw [h] at hdone
        cases hdone

/-- The sample conflict answered client: one mutation. -/
theorem fulfilled_conflict_mutations_witness :
    (onConflict (fun _ => some (.prim (.str "client"))) sampleUpdate).completion = .fulfilled ∧
    (onConflict (fun _ => some (.prim (.str "client"))) sampleUpdate).mutations.length = 1 :=
  ⟨by decide,
   (fulfilled_conflict_mutations (fun _ => some (.prim (.str "client"))) sampleUpdate
      (by decide)).2.1 (fun _ _ => by simp) (fun _ _ => by decide)⟩

/-! ## Records under removal and copying -/

theorem getField_of_not_hasField (r : Record) (key : String) (h : hasField r key = false) :
    getField r key = .undefined := by
  induction r with
  | nil => rfl
  | cons kv rest ih =>
    obtain ⟨k, v⟩ := kv
    simp only [hasField, List.any_cons, Bool.or_eq_false_iff, beq_eq_false_iff_ne, ne_eq] at h
    have hrest : hasField rest key = false := h.2
    simp [getField, h.1, ih hrest]

theorem hasField_iff_mem_keys (r : Record) (key : String) :
    hasField r key = true ↔ key ∈ r.map Prod.fst := by
  induction r with
  | nil => simp [hasField]
  | cons kv rest ih =>
    obtain ⟨k, v⟩ := kv
    simp only [hasField] at ih
    simp only [hasField, List.any_cons, Bool.or_eq_true, beq_iff_eq, List.map_cons,
      List.mem_cons, ih]
    constructor
    · rintro (h | h)
      · exact Or.inl h.symm
      · exact Or.inr h
    · rintro (h | h)
      · exact Or.inl h.symm
      · exact Or.inr h

theorem getField_filter (r : Record) (keep : String × Value → Bool) (key : String)
    (hkeys : (r.map Prod.fst).Nodup) :
    getField (r.filter keep) key
      = if keep (key, getField r key) = true then getField r key else
          if hasField r key = true then .undefined else getField r key := by
  induction r with
  | nil => simp [getField]
  | cons kv rest ih =>
    obtain ⟨k, v⟩ := kv
    simp only [List.map_cons, List.nodup_cons] at hkeys
    have ih1 := ih hkeys.2
    by_cases hk : k = key
    · subst hk
      have habsent : hasField rest k = false := by
        cases hh : hasField rest k with
        | false => rfl
        | true => exact absurd ((hasField_iff_mem_keys rest k).1 hh) hkeys.1
      have hundef := getField_of_not_hasField rest k habsent
      by_cases hkeep : keep (k, v) = true
      · simp [List.filter, hkeep, getField]
      · have hkeep1 : keep (k, v) = false := by simpa using hkeep
        simp only [List.filter, hkeep1, getField, if_true, hasField, List.any_cons, beq_self_eq_true,
          Bool.true_or, Bool.false_eq_true, if_false]
        rw [ih1, hundef, habsent]
        simp
    · have hhas : hasField ((k, v) :: rest) key = hasField rest key := by
        simp [hasField, hk]
      rw [hhas]
      simp only [getField, hk, if_false]
      by_cases hkeep : keep (k, v) = true
      · simp only [List.filter, hkeep, getField, hk, if_false]
        exact ih1
      · have hkeep1 : keep (k, v) = false := by simpa using hkeep
        simp only [List.filter, hkeep1]
        exact ih1

theorem hasField_filter (r : Record) (keep : String × Value → Bool) (key : String)
    (h : hasField (r.filter keep) key = true) : hasField r key = true := by
  rw [hasField_iff_mem_keys] at h ⊢
  obtain ⟨kv, hmem, hfst⟩ := List.mem_map.1 h
  exact List.mem_map.2 ⟨kv, (List.mem_filter.1 hmem).1, hfst⟩

theorem hasField_deleteField_same (r : Record) (key : String) :
    hasField (deleteField r key) key = false := by
  cases hh : hasField (deleteField r key) key with
  | false => rfl
  | true =>
    obtain ⟨kv, hmem, hfst⟩ := List.mem_map.1 ((hasField_iff_mem_keys _ _).1 hh)
    have hne := (List.mem_filter.1 hmem).2
    simp [hfst] at hne

theorem nodup_keys_filter (r : Record) (keep : String × Value → Bool)
    (hkeys : (r.map Prod.fst).Nodup) : ((r.filter keep).map Prod.fst).Nodup :=
  List.Nodup.sublist ((List.filter_sublist r).map Prod.fst) hkeys

/-! ## Objects -/

theorem readObj_append_new (h : Heap) (r : Record) : readObj (h ++ [r]) h.length = r := by
  simp [readObj, List.getD_eq_getElem?_getD]

theorem readObj_append_old (h : Heap) (r : Record) (p : Ref) (hp : p < h.length) :
    readObj (h ++ [r]) p = readObj h p := by
  simp [readObj, List.getD_eq_getElem?_getD, List.getElem?_append_left hp]

theorem writeObj_append_new (h : Heap) (r r1 : Record) :
    writeObj (h ++ [r]) h.length r1 = h ++ [r1] := by
  induction h with
  | nil => rfl
  | cons x rest ih =>
    simp only [writeObj] at ih
    simp [writeObj, ih]

theorem setConflictResolutionCandidate_eq (st : UiState) (record : Ref) :
    setConflictResolutionCandidate st record
      = { st with heap := st.heap ++ [candidateOf (readObj st.heap record)],
                  custominput := JSON_stringify (candidateOf (readObj st.heap record)) } := by
  simp only [setConflictResolutionCandidate, allocObj, readObj_append_new, writeObj_append_new,
    candidateOf]

theorem getField_deleteField_other (r : Record) (key other : String) (h : other ≠ key) :
    getField (deleteField r key) other = getField r other := by
  induction r with
  | nil => rfl
  | cons kv rest ih =>
    obtain ⟨k, v⟩ := kv
    simp only [deleteField] at ih
    by_cases hk : k = key
    · subst hk
      have hb : (k != k) = false := by simp
      simp only [deleteField, List.filter_cons, hb, getField, Ne.symm h, if_false]
      exact ih
    · have hb : (k != key) = true := by simpa using hk
      by_cases ho : k = other
      · subst ho
        simp [deleteField, List.filter_cons, getField, h]
      · simp only [deleteField, List.filter_cons, hb, getField, ho, if_true, if_false]
        exact ih

theorem getField_jsonCopy (r : Record) (key : String) (hkeys : (r.map Prod.fst).Nodup) :
    getField (jsonCopy r) key = getField r key := by
  unfold jsonCopy
  rw [getField_filter r _ key hkeys]
  by_cases hv : getField r key = .undefined
  · simp [hv]
  · simp [hv]

theorem hasField_deleteField_sub (r : Record) (key other : String)
    (h : hasField (deleteField r key) other = true) : hasField r other = true :=
  hasField_filter r _ other h

theorem nodup_keys_candidateOf (r : Record) (hkeys : (r.map Prod.fst).Nodup) :
    ((candidateOf r).map Prod.fst).Nodup := by
  unfold candidateOf deleteField jsonCopy
  exact nodup_keys_filter _ _ (nodup_keys_filter _ _ (nodup_keys_filter _ _
    (nodup_keys_filter _ _ hkeys)))

/-! ## The conflict dialog -/

theorem hasField_filter_iff (r : Record) (keep : String × Value → Bool) (key : String)
    (hkeys : (r.map Prod.fst).Nodup) :
    hasField (r.filter keep) key = true
      ↔ hasField r key = true ∧ keep (key, getField r key) = true := by
  induction r with
  | nil => simp [hasField]
  | cons kv rest ih =>
    obtain ⟨k, v⟩ := kv
    simp only [List.map_cons, List.nodup_cons] at hkeys
    have ih1 := ih hkeys.2
    by_cases hk : k = key
    · subst hk
      have habsent : ¬ hasField (rest.filter keep) k = true := by
        intro hh
        exact hkeys.1 ((hasField_iff_mem_keys rest k).1 (hasField_filter rest keep k hh))
      have hhere : hasField ((k, v) :: rest) k = true := by simp [hasField]
      have hread : getField ((k, v) :: rest) k = v := by simp [getField]
      rw [hhere, hread]
      by_cases hkeep : keep (k, v) = true
      · simp [List.filter_cons, hkeep, hasField]
      · have hkeep1 : keep (k, v) = false := by simpa using hkeep
        simp only [List.filter_cons, hkeep1, Bool.false_eq_true, if_false, and_false, iff_false]
        exact habsent
    · have hhas : ∀ l : Record, hasField ((k, v) :: l) key = hasField l key := by
        intro l
        simp [hasField, hk]
      have hread : getField ((k, v) :: rest) key = getField rest key := by
        simp [getField, hk]
      rw [hhas rest, hread]
      by_cases hkeep : keep (k, v) = true
      · simp only [List.filter_cons, hkeep, if_true]
        rw [hhas]
        exact ih1
      · have hkeep1 : keep (k, v) = false := by simpa using hkeep
        simp only [List.filter_cons, hkeep1, Bool.false_eq_true, if_false]
        exact ih1

theorem jsonCopy_candidateOf (r : Record) :
    jsonCopy (candidateOf r)
      = r.filter (fun kv => kv.1 != "id" && kv.1 != "deleted" && kv.1 != "version"
          && kv.2 != .undefined) := by
  simp only [jsonCopy, candidateOf, deleteField, List.filter_filter]
  apply List.filter_congr
  intro x _
  cases (x.1 != "id") <;> cases (x.1 != "deleted") <;> cases (x.1 != "version") <;>
    cases (x.2 != Value.undefined) <;> rfl

/-- C10 as stated fails: the note property of the record holds `undefined`, and the
text put in the input box has lost it along with the id: more than id, deleted and
version is removed. The record itself is as it was. -/
theorem undefined_property_counterexample :
    hasField noteRecord "note" = true ∧
    (resolve (UiState.init [noteRecord]) 0).custominput
      = .json (.obj [("text", .str "foo")]) ∧
    hasField [("text", .str "foo")] "note" = false ∧
    readObj (resolve (UiState.init [noteRecord]) 0).heap 0 = noteRecord := by
  decide

/-- C10, amended: `resolve` leaves the record it is given as it was, and every other
object that existed. What it puts in the input box is the text of a record whose
properties are exactly those properties of the given record that are not id,
deleted or version and do not hold `undefined`; each property other than id,
deleted and version reads in it as in the given record. -/
theorem candidate_drops_identity_and_undefined (st : UiState) (record : Ref)
    (hlive : record < st.heap.length)
    (hkeys : ((readObj st.heap record).map Prod.fst).Nodup) :
    readObj (resolve st record).heap record = readObj st.heap record ∧
    (∀ p, p < st.heap.length → readObj (resolve st record).heap p = readObj st.heap p) ∧
    ∃ candidate,
      (resolve st record).custominput = .json (.obj candidate) ∧
      (∀ key, hasField candidate key = true ↔
        (hasField (readObj st.heap record) key = true ∧ key ≠ "id" ∧ key ≠ "deleted" ∧
          key ≠ "version" ∧ getField (readObj st.heap record) key ≠ .undefined)) ∧
      (∀ key, key ≠ "id" → key ≠ "deleted" → key ≠ "version" →
        getField candidate key = getField (readObj st.heap record) key) := by
  have hheap : (resolve st record).heap
      = st.heap ++ [candidateOf (readObj st.heap record)] := by
    simp [resolve, showConflictDialog, setConflictResolutionCandidate_eq]
  have hinput : (resolve st record).custominput
      = .json (.obj (jsonCopy (candidateOf (readObj st.heap record)))) := by
    simp [resolve, showConflictDialog, setConflictResolutionCandidate_eq, JSON_stringify]
  refine ⟨?_, ?_, jsonCopy (candidateOf (readObj st.heap record)), hinput, ?_, ?_⟩
  · rw [hheap]; exact readObj_append_old _ _ _ hlive
  · intro p hp
    rw [hheap]; exact readObj_append_old _ _ _ hp
  · intro key
    rw [jsonCopy_candidateOf, hasField_filter_iff _ _ key hkeys]
    simp only [Bool.and_eq_true, bne_iff_ne, ne_eq]
    constructor
    · rintro ⟨hhas, ⟨⟨hid, hdeleted⟩, hversion⟩, hdefined⟩
      exact ⟨hhas, hid, hdeleted, hversion, hdefined⟩
    · rintro ⟨hhas, hid, hdeleted, hversion, hdefined⟩
      exact ⟨hhas, ⟨⟨hid, hdeleted⟩, hversion⟩, hdefined⟩
  · intro key hid hdeleted hversion
    rw [getField_jsonCopy _ _ (nodup_keys_candidateOf _ hkeys)]
    unfold candidateOf
    rw [getField_deleteField_other _ _ _ hversion, getField_deleteField_other _ _ _ hdeleted,
      getField_deleteField_other _ _ _ hid, getField_jsonCopy _ _ hkeys]

/-- The sample client record in the dialog: it keeps its id, and the text shown is
that of the record with text and complete only. -/
theorem candidate_drops_identity_and_undefined_witness :
    readObj (resolve (UiState.init [sampleClient]) 0).heap 0 = sampleClient ∧
    (resolve (UiState.init [sampleClient]) 0).custominput
      = .json (.obj [("text", .str "foo"), ("complete", .bool false)]) :=
  ⟨(candidate_drops_identity_and_undefined (UiState.init [sampleClient]) 0
      (by decide) (by decide)).1,
   by decide⟩

/-- A close with the custom option chosen and text that is not JSON passes nothing to
the promise: an alert is shown and the dialog is open again, with the choice and the
text as they were. -/
theorem invalid_custom_input_asks_again (st : UiState)
    (hcustom : st.result = .prim .undefined) (htext : st.custominput = .invalid)
    (hopen : st.dialogOpen = true) :
    uiStep st .close = ({ st with alerts := st.alerts + 1 }, none) := by
  obtain ⟨heap, result, custominput, visible, bound, dialogOpen, alerts⟩ := st
  simp only at hcustom htext hopen
  subst hcustom htext hopen
  simp [uiStep, closeHandler, JSON_parse, showConflictDialog]

/-- C9: with the custom option chosen, input that is JSON but not a record is passed
on by the dialog at the first close, without an alert and without asking again. The
JSON text of the string skip reaches the update handler as the answer skip, which
leaves the operation as it is; the JSON text null makes the update handler reject
with a TypeError. -/
theorem custom_non_record_is_delivered :
    dialogManager (UiState.init []) quotedSkipEvents sampleClient
      = some (.prim (.str "skip")) ∧
    (uiRun (resolve (UiState.init [sampleClient]) 0) quotedSkipEvents).1.alerts = 0 ∧
    (uiRun (resolve (UiState.init [sampleClient]) 0) quotedSkipEvents).1.dialogOpen = false ∧
    handleUpdateConflict (dialogManager (UiState.init []) quotedSkipEvents) sampleUpdate
      = { calls := [.resolve sampleClient], completion := .fulfilled } ∧
    dialogManager (UiState.init []) nullEvents sampleClient = some (.prim .null) ∧
    handleUpdateConflict (dialogManager (UiState.init []) nullEvents) sampleUpdate
      = { calls := [.resolve sampleClient], completion := .rejected .typeError } := by
  decide

end ConflictHandling
